import Mathlib

/-!
Shallow embedding of the CodeGuardian finding-lifecycle pipeline
(`src/core/risk_scorer.py`, `src/core/deduplication.py`,
`src/core/suppression.py`, `src/agents/context_analyzer.py`).

Python dictionaries are modelled as structures with `Option` fields wherever
the source reads them through `dict.get` with a default; each use site applies
the same default as the source.  Python float arithmetic on the small integer
sub-scores is modelled with exact rationals: every value the scorer produces
is an integer multiple of 1/10, where binary floating point and exact
arithmetic agree and `round(_, 2)` is the identity.  Substring tests
(`'kw' in message`) are modelled by contiguous-sublist containment on the
character list; lower-casing is ASCII, as every keyword involved is ASCII.
-/

namespace CodeGuardian

/-- Python `str.lower()` (ASCII; every keyword tested is ASCII). -/
def lowerStr (s : String) : String := ⟨s.data.map Char.toLower⟩

/-- `needle` occurs as a contiguous run at some position of `hay`. -/
def hasInfixChars : List Char → List Char → Bool
  | needle, [] => needle.isEmpty
  | needle, c :: rest => needle.isPrefixOf (c :: rest) || hasInfixChars needle rest

/-- `'needle' in hay` of Python: contiguous substring containment. -/
def strContains (hay needle : String) : Bool :=
  hasInfixChars needle.toList hay.toList

/-- One finding record (a Python dict).  Fields the source reads with
`dict.get key default` are `Option`s; the default is applied at the use site
exactly as in the source. -/
structure Finding where
  file : Option String := none
  line : Option Nat := none
  type : Option String := none
  severity : Option String := none
  message : Option String := none
  tool : Option String := none
  detected_by : Option (List String) := none
  confidence : Option Nat := none
  risk_score : Option ℚ := none
  risk_impact : Option ℤ := none
  risk_likelihood : Option ℤ := none
  risk_fix_cost : Option ℤ := none
  risk_scope : Option ℤ := none
  risk_level : Option String := none
  deriving Repr, DecidableEq

/-- The analysis context produced by `get_default_context` /
`parse_context_analysis`; those constructors always populate every key. -/
structure Context where
  purpose : String := "Code review"
  project_type : String := "Application"
  stage : String := "Development"
  is_performance_critical : Bool := false
  has_domain_complexity : Bool := false
  risk_tolerance : String := "medium"
  maintainers : String := "Team"
  deriving Repr, DecidableEq

/-! ## Risk scorer (`src/core/risk_scorer.py`) -/

/-- `RiskScorer.calculate_impact`. -/
def calculate_impact (ctx : Context) (issue : Finding) : ℤ :=
  let issue_type := issue.type.getD ""
  let message := lowerStr (issue.message.getD "")
  if issue_type = "security" then
    if strContains message "sql injection" || strContains message "eval" then 10
    else if strContains message "xss" || strContains message "hardcoded" then 8
    else 7
  else if issue_type = "semantic" then
    if strContains message "crash" || strContains message "error" then 7
    else 5
  else if issue_type = "complexity" then
    if ctx.stage = "Production" then 6 else 3
  else 4

/-- `RiskScorer.calculate_likelihood`. -/
def calculate_likelihood (issue : Finding) : ℤ :=
  let message := lowerStr (issue.message.getD "")
  if strContains message "hardcoded" || strContains message "secret" then 10
  else if strContains message "eval" || strContains message "sql injection" then 9
  else if strContains message "division by zero" then 7
  else if strContains message "xss" then 6
  else if strContains message "docstring" then 1
  else 5

/-- `RiskScorer.calculate_fix_cost`. -/
def calculate_fix_cost (issue : Finding) : ℤ :=
  let message := lowerStr (issue.message.getD "")
  let issue_type := issue.type.getD ""
  if strContains message "refactor" then 9
  else if issue_type = "complexity" then
    if strContains message "long function" then 7 else 5
  else if strContains message "docstring" then 1
  else if strContains message "naming" then 2
  else 4

/-- `RiskScorer.calculate_scope`. -/
def calculate_scope (issue : Finding) : ℤ :=
  let issue_type := issue.type.getD ""
  let message := lowerStr (issue.message.getD "")
  if issue_type = "security" then
    if strContains message "sql" || strContains message "eval" then 9
    else 6
  else if strContains message "function" then 3
  else 5

/-- Python `round(q, 2)` on the scorer's values.  Modelled as round half up
on exact rationals; every score the code produces is an integer multiple of
1/10, where all rounding modes agree and the result is `q` itself. -/
def round2 (q : ℚ) : ℚ := (⌊q * 100 + 1 / 2⌋ : ℚ) / 100

/-- `RiskScorer.get_risk_level`; applied to the un-rounded score as in the
source. -/
def get_risk_level (score : ℚ) : String :=
  if 8 ≤ score then "CRITICAL"
  else if 6 ≤ score then "HIGH"
  else if 4 ≤ score then "MEDIUM"
  else if 2 ≤ score then "LOW"
  else "MINIMAL"

/-- `RiskScorer.score_issue`. -/
def score_issue (ctx : Context) (issue : Finding) : Finding :=
  let impact := calculate_impact ctx issue
  let likelihood := calculate_likelihood issue
  let fix_cost := calculate_fix_cost issue
  let scope := calculate_scope issue
  let risk_score : ℚ :=
    (impact : ℚ) * 0.4 + (likelihood : ℚ) * 0.3 + (scope : ℚ) * 0.2 +
      ((10 - fix_cost : ℤ) : ℚ) * 0.1
  { issue with
      risk_score := some (round2 risk_score)
      risk_impact := some impact
      risk_likelihood := some likelihood
      risk_fix_cost := some fix_cost
      risk_scope := some scope
      risk_level := some (get_risk_level risk_score) }

/-- The sort key `x.get('risk_score', 0)` used by `score_all_issues`. -/
def getRS (x : Finding) : ℚ := x.risk_score.getD 0

instance : IsTotal Finding fun a b => getRS b ≤ getRS a :=
  ⟨fun a b => le_total (getRS b) (getRS a)⟩

instance : IsTrans Finding fun a b => getRS b ≤ getRS a :=
  ⟨fun _ _ _ hab hbc => le_trans hbc hab⟩

/-- `score_all_issues`: score a copy of every issue, then
`scored.sort(key=..., reverse=True)`.  Python's `list.sort` is a stable sort
and `reverse=True` preserves stability, so its output is the unique
descending-stable permutation, realised here by `List.insertionSort` with the
non-strict descending comparison. -/
def score_all_issues (issues : List Finding) (ctx : Context) : List Finding :=
  (issues.map fun i => score_issue ctx i).insertionSort fun a b => getRS b ≤ getRS a

/-! ## Deduplication (`src/core/deduplication.py`) -/

/-- The `.*?\]` tail of the Bandit-code pattern: the nearest `]`, with `.`
not matching a newline (Python `re` default).  Returns the remainder after
the `]`, or `none` when no `]` occurs before a newline or the end. -/
def scanToBracket : List Char → Option (List Char)
  | [] => none
  | c :: rest =>
    if c = ']' then some rest
    else if c = '\n' then none
    else scanToBracket rest

/-- A match of `\[b\d+:.*?\]` starting at the head of the list; returns the
remainder after the match. -/
def matchBandit : List Char → Option (List Char)
  | '[' :: 'b' :: rest =>
    if (rest.takeWhile Char.isDigit).isEmpty then none
    else
      match rest.dropWhile Char.isDigit with
      | ':' :: tail => scanToBracket tail
      | _ => none
  | _ => none

/-- A match of `line \d+:` starting at the head of the list. -/
def matchLineNum : List Char → Option (List Char)
  | 'l' :: 'i' :: 'n' :: 'e' :: ' ' :: rest =>
    if (rest.takeWhile Char.isDigit).isEmpty then none
    else
      match rest.dropWhile Char.isDigit with
      | ':' :: tail => some tail
      | _ => none
  | _ => none

/-- A match of `\d+:` starting at the head of the list. -/
def matchNum (l : List Char) : Option (List Char) :=
  if (l.takeWhile Char.isDigit).isEmpty then none
  else
    match l.dropWhile Char.isDigit with
    | ':' :: tail => some tail
    | _ => none

/-- `re.sub(pattern, '', s)`: scan left to right; at each position delete the
(leftmost) match if one starts there, else keep the character.  Fuel is the
list length; a successful match consumes at least one character, so the fuel
never runs out on the reachable calls. -/
def stripSub (m : List Char → Option (List Char)) : Nat → List Char → List Char
  | 0, l => l
  | _ + 1, [] => []
  | fuel + 1, c :: cs =>
    match m (c :: cs) with
    | some rest => stripSub m fuel rest
    | none => c :: stripSub m fuel cs

/-- Python `str.strip()`: drop whitespace from both ends. -/
def trimChars (l : List Char) : List Char :=
  ((l.dropWhile Char.isWhitespace).reverse.dropWhile Char.isWhitespace).reverse

/-- The message normalization inside `create_fingerprint`: lower-case, strip
Bandit codes, `line N:` tokens and `N:` tokens, then strip whitespace. -/
def normalize_message (msg : String) : List Char :=
  let m1 := (lowerStr msg).data
  let m2 := stripSub matchBandit m1.length m1
  let m3 := stripSub matchLineNum m2.length m2
  stripSub matchNum m3.length m3

/-- `create_fingerprint`: `f"{file}:{line}:{message[:50]}"` over the
normalized message, with `file` defaulting to `'unknown'` and `line` to the
sentinel `0`. -/
def create_fingerprint (issue : Finding) : String :=
  let message := trimChars (normalize_message (issue.message.getD ""))
  let file_key := issue.file.getD "unknown"
  let line_key := issue.line.getD 0
  file_key ++ ":" ++ toString line_key ++ ":" ++ String.mk (message.take 50)

/-- `issue.get('tool', issue.get('type', 'unknown'))`: the originating
detector identifier recorded by `merge_duplicate_metadata`. -/
def toolId (issue : Finding) : String :=
  issue.tool.getD (issue.type.getD "unknown")

/-- `merge_duplicate_metadata`: fold the duplicate's detector identifier into
the canonical record and refresh `confidence`. -/
def merge_duplicate_metadata (existing duplicate : Finding) : Finding :=
  let detected :=
    match existing.detected_by with
    | none => [toolId existing]
    | some l => l
  let dup_tool := toolId duplicate
  let detected2 := if dup_tool ∈ detected then detected else detected ++ [dup_tool]
  { existing with detected_by := some detected2, confidence := some detected2.length }

/-- The in-place merge inside `deduplicate_issues`: merge `dup` into the
first element of the list whose fingerprint equals `g`. -/
def mergeInto (acc : List Finding) (g : String) (dup : Finding) : List Finding :=
  match acc with
  | [] => []
  | y :: ys =>
    if create_fingerprint y = g then merge_duplicate_metadata y dup :: ys
    else y :: mergeInto ys g dup

/-- The loop of `deduplicate_issues`: `seen` is the set of fingerprints of
the accumulated canonical records. -/
def dedup_go (seen : List String) (acc : List Finding) : List Finding → List Finding
  | [] => acc
  | issue :: rest =>
    let f := create_fingerprint issue
    if f ∈ seen then dedup_go seen (mergeInto acc f issue) rest
    else dedup_go (f :: seen) (acc ++ [issue]) rest

/-- `deduplicate_issues`. -/
def deduplicate_issues (issues : List Finding) : List Finding :=
  dedup_go [] [] issues

/-- The `noise_patterns` list of `should_keep_issue`. -/
def noise_patterns : List String :=
  ["line too long", "trailing whitespace", "missing final newline",
   "wrong import order", "unused import", "module level import",
   "lowercase variable", "invalid name \"i\"", "invalid name \"x\"",
   "invalid name \"f\""]

/-- `should_keep_issue`. -/
def should_keep_issue (issue : Finding) : Bool :=
  let message := lowerStr (issue.message.getD "")
  if (noise_patterns.any fun p => strContains message p) ∧
      issue.risk_score.getD 0 < 3 then false
  else if 4 ≤ issue.risk_score.getD 0 then true
  else if issue.type = some "security" then true
  else if issue.type = some "semantic" ∧ strContains message "critical" then true
  else if issue.type = some "complexity" ∧ issue.risk_score.getD 0 < 4 then false
  else true

/-- `smart_filter_noise`. -/
def smart_filter_noise (issues : List Finding) : List Finding :=
  issues.filter should_keep_issue

/-- `process_issues_pipeline`: deduplicate, then filter noise (the
aggregation step is commented out in the source). -/
def process_issues_pipeline (issues : List Finding) : List Finding :=
  smart_filter_noise (deduplicate_issues issues)

/-! ## Suppression engine (`src/core/suppression.py`) -/

/-- Rule 1: `suppress_performance_complexity`. -/
def suppress_performance_complexity (ctx : Context) (issue : Finding) :
    Bool × String :=
  if issue.type ≠ some "complexity" then (false, "")
  else if ¬ctx.is_performance_critical then (false, "")
  else
    let message := lowerStr (issue.message.getD "")
    if strContains message "complexity" ∨ strContains message "nesting" then
      (true, "Performance-critical code - complexity acceptable")
    else (false, "")

/-- Rule 2: `suppress_domain_complexity`. -/
def suppress_domain_complexity (ctx : Context) (issue : Finding) :
    Bool × String :=
  if issue.type ≠ some "complexity" then (false, "")
  else if ¬ctx.has_domain_complexity then (false, "")
  else
    let filename := lowerStr (issue.file.getD "")
    if (["parser", "model", "crypto", "transform"].any fun kw =>
          strContains filename kw) ∧
        strContains (lowerStr (issue.message.getD "")) "complexity" then
      (true, "Domain-heavy code - complexity expected")
    else (false, "")

/-- Rule 3: `suppress_generated_code`. -/
def suppress_generated_code (issue : Finding) : Bool × String :=
  let filename := lowerStr (issue.file.getD "")
  if ["generated", "_gen.", "migrations/", "vendor/"].any fun p =>
      strContains filename p then
    (true, "Generated code")
  else (false, "")

/-- Rule 4: `suppress_prototype_style`. -/
def suppress_prototype_style (ctx : Context) (issue : Finding) : Bool × String :=
  if ctx.stage ≠ "Prototype" then (false, "")
  else
    let message := lowerStr (issue.message.getD "")
    if ["docstring", "naming", "comment"].any fun kw =>
        strContains message kw then
      (true, "Prototype - style not critical")
    else (false, "")

/-- Rule 5: `suppress_test_code_issues`. -/
def suppress_test_code_issues (issue : Finding) : Bool × String :=
  let filename := lowerStr (issue.file.getD "")
  if ¬(["test_", "_test.", "tests/"].any fun m => strContains filename m) then
    (false, "")
  else
    let message := lowerStr (issue.message.getD "")
    if strContains message "complexity" ∨ strContains message "docstring" then
      (true, "Test code - relaxed rules")
    else (false, "")

/-- The ordered rule list iterated by `SuppressionEngine.should_suppress`. -/
def suppression_rules (ctx : Context) : List (Finding → Bool × String) :=
  [suppress_performance_complexity ctx,
   suppress_domain_complexity ctx,
   suppress_generated_code,
   suppress_prototype_style ctx,
   suppress_test_code_issues]

/-- The loop body of `should_suppress`: first rule returning `true` wins. -/
def run_rules : List (Finding → Bool × String) → Finding → Bool × String
  | [], _ => (false, "")
  | r :: rs, issue =>
    let res := r issue
    if res.1 then (true, res.2) else run_rules rs issue

/-- `SuppressionEngine.should_suppress`. -/
def should_suppress (ctx : Context) (issue : Finding) : Bool × String :=
  run_rules (suppression_rules ctx) issue

/-- `apply_suppressions`: keep exactly the issues the engine does not
suppress, in order. -/
def apply_suppressions (issues : List Finding) (ctx : Context) : List Finding :=
  match issues with
  | [] => []
  | issue :: rest =>
    if (should_suppress ctx issue).1 then apply_suppressions rest ctx
    else issue :: apply_suppressions rest ctx

/-- The `suppressed_count` side metric printed by `apply_suppressions`. -/
def suppressed_count (issues : List Finding) (ctx : Context) : Nat :=
  issues.countP fun issue => (should_suppress ctx issue).1

/-! ## Context analyzer (`src/agents/context_analyzer.py`) -/

/-- `get_default_context`. -/
def get_default_context : Context :=
  { purpose := "Code review"
    project_type := "Application"
    stage := "Development"
    is_performance_critical := false
    has_domain_complexity := false
    risk_tolerance := "medium"
    maintainers := "Team" }

/-- Python `line.split(sep)[1]`: the text between the first and second
occurrence of `sep` (to the end when `sep` occurs once).  Only reached when
`sep` occurs in `line`, so the list has at least two entries. -/
def afterMarker (line sep : String) : String :=
  (line.splitOn sep).getD 1 ""

/-- The per-line update of `parse_context_analysis`. -/
def parse_context_line (ctx : Context) (line0 : String) : Context :=
  let line := line0.trim
  if strContains line "Purpose:" then
    { ctx with purpose := (afterMarker line "Purpose:").trim }
  else if strContains line "Type:" then
    { ctx with project_type := (afterMarker line "Type:").trim }
  else if strContains line "Stage:" then
    { ctx with stage := (afterMarker line "Stage:").trim }
  else if strContains line "Performance Critical:" then
    { ctx with is_performance_critical := strContains (lowerStr line) "yes" }
  else if strContains line "Domain Complexity:" then
    { ctx with has_domain_complexity := strContains (lowerStr line) "yes" }
  else if strContains line "Risk Tolerance:" then
    let tol := lowerStr ((afterMarker line "Risk Tolerance:").trim)
    { ctx with risk_tolerance :=
        if tol ∈ ["low", "medium", "high"] then tol else "medium" }
  else ctx

/-- `parse_context_analysis`: start from the default context and fold the
response's lines. -/
def parse_context_analysis (analysis : String) : Context :=
  (analysis.splitOn "\n").foldl parse_context_line get_default_context

/-- `analyze_context`.  The two external effects are made explicit: the
configured API credential (`settings.anthropic_api_key`) and the outcome of
the network call (`Except Unit String`, `.error` meaning the call raised). -/
def analyze_context (code_files : List (String × String))
    (api_key : Option String) (response : Except Unit String) : Context :=
  match api_key with
  | none => get_default_context
  | some _ =>
    match response with
    | .error _ => get_default_context
    | .ok text => parse_context_analysis text

/-! ## Helper lemmas -/

/-- Unfolding step for the suppression rule loop. -/
theorem run_rules_cons (r : Finding → Bool × String)
    (rs : List (Finding → Bool × String)) (i : Finding) :
    run_rules (r :: rs) i = if (r i).1 then r i else run_rules rs i := by
  cases hr : r i with
  | mk b s => cases b <;> simp [run_rules, hr]

/-- `apply_suppressions` is the order-preserving filter by the engine's
verdict. -/
theorem apply_suppressions_eq_filter (issues : List Finding) (ctx : Context) :
    apply_suppressions issues ctx =
      issues.filter fun i => !(should_suppress ctx i).1 := by
  induction issues with
  | nil => rfl
  | cons x xs ih =>
    by_cases h : (should_suppress ctx x).1 <;>
      simp [apply_suppressions, List.filter_cons, h, ih]

/-- The lower-cased message, as read by the scorer's rule tables. -/
def lowerMsg (issue : Finding) : String := lowerStr (issue.message.getD "")

/-- The impact sub-score always lies in [0, 10]. -/
theorem calculate_impact_bounds (ctx : Context) (issue : Finding) :
    0 ≤ calculate_impact ctx issue ∧ calculate_impact ctx issue ≤ 10 := by
  unfold calculate_impact
  dsimp only
  repeat' split <;> norm_num

/-- The likelihood sub-score always lies in [0, 10]. -/
theorem calculate_likelihood_bounds (issue : Finding) :
    0 ≤ calculate_likelihood issue ∧ calculate_likelihood issue ≤ 10 := by
  unfold calculate_likelihood
  dsimp only
  repeat' split <;> norm_num

/-- The fix-cost sub-score always lies in [0, 10]. -/
theorem calculate_fix_cost_bounds (issue : Finding) :
    0 ≤ calculate_fix_cost issue ∧ calculate_fix_cost issue ≤ 10 := by
  unfold calculate_fix_cost
  dsimp only
  repeat' split <;> norm_num

/-- The scope sub-score always lies in [0, 10]. -/
theorem calculate_scope_bounds (issue : Finding) :
    0 ≤ calculate_scope issue ∧ calculate_scope issue ≤ 10 := by
  unfold calculate_scope
  dsimp only
  repeat' split <;> norm_num

/-- On integer multiples of 1/10 — every value the scorer produces —
rounding to two decimals is the identity. -/
theorem round2_int_div_ten (k : ℤ) : round2 ((k : ℚ) / 10) = (k : ℚ) / 10 := by
  unfold round2
  have h1 : ((k : ℚ) / 10) * 100 + 1 / 2 = ((10 * k : ℤ) : ℚ) + 1 / 2 := by
    push_cast; ring
  have h2 : ⌊((10 * k : ℤ) : ℚ) + 1 / 2⌋ = 10 * k := by
    rw [Int.floor_eq_iff] <;> constructor <;> norm_num
  rw [h1, h2]
  push_cast; ring

/-- What deduplication leaves of one fingerprint group: nothing for an empty
group, otherwise the first-seen finding with every later duplicate's metadata
folded in. -/
def collapseGroup : List Finding → List Finding
  | [] => []
  | c :: ds => [ds.foldl merge_duplicate_metadata c]

theorem fp_merge (e d : Finding) :
    create_fingerprint (merge_duplicate_metadata e d) = create_fingerprint e :=
  rfl

theorem mergeInto_map_fp (acc : List Finding) (g : String) (x : Finding) :
    (mergeInto acc g x).map create_fingerprint = acc.map create_fingerprint := by
  induction acc with
  | nil => rfl
  | cons y ys ih =>
    by_cases h : create_fingerprint y = g <;>
      simp [mergeInto, h, fp_merge, ih]

theorem mergeInto_filter_ne (acc : List Finding) (g : String) (x : Finding)
    (f : String) (hfg : f ≠ g) :
    ((mergeInto acc g x).filter fun y => create_fingerprint y = f) =
      (acc.filter fun y => create_fingerprint y = f) := by
  induction acc with
  | nil => rfl
  | cons y ys ih =>
    simp only [mergeInto]
    by_cases h : create_fingerprint y = g
    · have hyf : create_fingerprint y ≠ f := fun hc => hfg (hc.symm.trans h)
      rw [if_pos h, List.filter_cons, List.filter_cons, fp_merge]
      rw [if_neg (by simpa using hyf), if_neg (by simpa using hyf)]
    · rw [if_neg h, List.filter_cons, List.filter_cons]
      by_cases hyf : create_fingerprint y = f
      · rw [if_pos (by simpa using hyf), if_pos (by simpa using hyf), ih]
      · rw [if_neg (by simpa using hyf), if_neg (by simpa using hyf), ih]

theorem mergeInto_filter_self_cons (acc : List Finding) (g : String)
    (x c : Finding) (ds : List Finding)
    (hcons : (acc.filter fun y => create_fingerprint y = g) = c :: ds) :
    ((mergeInto acc g x).filter fun y => create_fingerprint y = g) =
      merge_duplicate_metadata c x :: ds := by
  induction acc with
  | nil => simp at hcons
  | cons y ys ih =>
    simp only [mergeInto]
    by_cases h : create_fingerprint y = g
    · rw [List.filter_cons, if_pos (by simpa using h)] at hcons
      rw [List.cons.injEq] at hcons
      obtain ⟨rfl, rfl⟩ := hcons
      rw [if_pos h, List.filter_cons, fp_merge, if_pos (by simpa using h)]
    · rw [List.filter_cons, if_neg (by simpa using h)] at hcons
      rw [if_neg h, List.filter_cons, if_neg (by simpa using h)]
      exact ih hcons

/-- At most one accumulated record carries any given fingerprint. -/
theorem filter_fp_length_le_one (acc : List Finding)
    (hnd : (acc.map create_fingerprint).Nodup) (f : String) :
    (acc.filter fun y => create_fingerprint y = f).length ≤ 1 := by
  induction acc with
  | nil => simp
  | cons y ys ih =>
    simp only [List.map_cons, List.nodup_cons] at hnd
    by_cases h : create_fingerprint y = f
    · have hnil : (ys.filter fun z => create_fingerprint z = f) = [] := by
        rw [List.filter_eq_nil_iff]
        intro z hz hc
        have hzf : create_fingerprint z = f := by simpa using hc
        apply hnd.1
        rw [h, ← hzf]
        exact List.mem_map_of_mem create_fingerprint hz
      rw [List.filter_cons, if_pos (by simpa using h), hnil]
      simp
    · rw [List.filter_cons, if_neg (by simpa using h)]
      exact ih hnd.2

/-- The central loop invariant of `deduplicate_issues`: for every
fingerprint, the records surviving the loop restrict, on that fingerprint,
to the collapse of the pending group appended to the already-accumulated
canonical record. -/
theorem dedup_go_filter (rest : List Finding) :
    ∀ (seen : List String) (acc : List Finding),
      (∀ s, s ∈ seen ↔ s ∈ acc.map create_fingerprint) →
      (acc.map create_fingerprint).Nodup →
      ∀ f, ((dedup_go seen acc rest).filter fun y => create_fingerprint y = f) =
        collapseGroup ((acc.filter fun y => create_fingerprint y = f) ++
          (rest.filter fun x => create_fingerprint x = f)) := by
  induction rest with
  | nil =>
    intro seen acc _ hnd f
    simp only [dedup_go, List.filter_nil, List.append_nil]
    rcases hflt : acc.filter fun y => create_fingerprint y = f with _ | ⟨c, ds⟩
    · simp [hflt, collapseGroup]
    · have hlen := filter_fp_length_le_one acc hnd f
      rw [hflt] at hlen
      simp only [List.length_cons] at hlen
      have hds : ds = [] := List.eq_nil_of_length_eq_zero (by omega)
      subst hds
      simp [hflt, collapseGroup]
  | cons x rest' ih =>
    intro seen acc hseen hnd f
    simp only [dedup_go]
    by_cases hmem : create_fingerprint x ∈ seen
    · rw [if_pos hmem]
      have hmap := mergeInto_map_fp acc (create_fingerprint x) x
      have hseen' : ∀ s, s ∈ seen ↔
          s ∈ (mergeInto acc (create_fingerprint x) x).map create_fingerprint := by
        intro s; rw [hmap]; exact hseen s
      have hnd' : ((mergeInto acc (create_fingerprint x) x).map
          create_fingerprint).Nodup := by rw [hmap]; exact hnd
      rw [ih seen _ hseen' hnd' f]
      by_cases hf : create_fingerprint x = f
      · subst hf
        have hex : create_fingerprint x ∈ acc.map create_fingerprint :=
          (hseen _).mp hmem
        rcases hflt : acc.filter fun y =>
            create_fingerprint y = create_fingerprint x with _ | ⟨c, ds⟩
        · rw [List.filter_eq_nil_iff] at hflt
          obtain ⟨y, hy, hyfp⟩ := List.mem_map.mp hex
          exact absurd hyfp (by simpa using hflt y hy)
        · have hlen := filter_fp_length_le_one acc hnd (create_fingerprint x)
          rw [hflt] at hlen
          simp only [List.length_cons] at hlen
          have hds : ds = [] := List.eq_nil_of_length_eq_zero (by omega)
          subst hds
          rw [mergeInto_filter_self_cons acc _ x c [] hflt]
          simp [List.filter_cons, collapseGroup]
      · rw [mergeInto_filter_ne acc _ x f (fun hc => hf hc.symm)]
        simp [List.filter_cons, hf]
    · rw [if_neg hmem]
      have hnotin : create_fingerprint x ∉ acc.map create_fingerprint :=
        fun hc => hmem ((hseen _).mpr hc)
      have hseen' : ∀ s, s ∈ create_fingerprint x :: seen ↔
          s ∈ ((acc ++ [x]).map create_fingerprint) := by
        intro s
        simp only [List.mem_cons, List.map_append, List.mem_append,
          List.map_cons, List.map_nil]
        constructor
        · rintro (rfl | hs)
          · exact Or.inr (by simp)
          · exact Or.inl ((hseen s).mp hs)
        · rintro (hs | hs)
          · exact Or.inr ((hseen s).mpr hs)
          · simp at hs
            exact Or.inl hs
      have hnd' : ((acc ++ [x]).map create_fingerprint).Nodup := by
        rw [List.map_append]
        rw [List.nodup_append]
        refine ⟨hnd, by simp, ?_⟩
        intro s hs
        simp only [List.map_cons, List.map_nil, List.mem_cons,
          List.not_mem_nil, or_false]
        intro hc
        exact hnotin (hc ▸ hs)
      rw [ih _ _ hseen' hnd' f]
      congr 1
      rw [List.filter_append, List.append_assoc]
      congr 1
      by_cases hf : create_fingerprint x = f <;>
        simp [List.filter_cons, hf]

/-- Per-fingerprint description of the deduplicated output. -/
theorem deduplicate_issues_filter (xs : List Finding) (f : String) :
    ((deduplicate_issues xs).filter fun y => create_fingerprint y = f) =
      collapseGroup (xs.filter fun x => create_fingerprint x = f) := by
  have h := dedup_go_filter xs [] [] (by simp) (by simp) f
  simpa [deduplicate_issues] using h

/-- Folding duplicate metadata never touches the identifying or scoring
fields of the canonical record. -/
theorem foldl_merge_core (ds : List Finding) (c : Finding) :
    (ds.foldl merge_duplicate_metadata c).file = c.file ∧
    (ds.foldl merge_duplicate_metadata c).line = c.line ∧
    (ds.foldl merge_duplicate_metadata c).message = c.message ∧
    (ds.foldl merge_duplicate_metadata c).type = c.type ∧
    (ds.foldl merge_duplicate_metadata c).tool = c.tool ∧
    (ds.foldl merge_duplicate_metadata c).risk_score = c.risk_score := by
  induction ds generalizing c with
  | nil => exact ⟨rfl, rfl, rfl, rfl, rfl, rfl⟩
  | cons d ds ih => exact ih (merge_duplicate_metadata c d)

/-- Accumulation of `detected_by` once it is populated: folding more
duplicates keeps every recorded identifier, records each duplicate's
identifier, and keeps `confidence` equal to the set's size. -/
theorem foldl_merge_detected_some (ds : List Finding) :
    ∀ (e : Finding) (D : List String), e.detected_by = some D →
      e.confidence = some D.length →
      ∃ D' : List String,
        (ds.foldl merge_duplicate_metadata e).detected_by = some D' ∧
        (ds.foldl merge_duplicate_metadata e).confidence = some D'.length ∧
        (∀ s ∈ D, s ∈ D') ∧ ∀ d ∈ ds, toolId d ∈ D' := by
  induction ds with
  | nil =>
    intro e D hD hC
    exact ⟨D, hD, by simpa using hC, fun s hs => hs, by simp⟩
  | cons d ds ih =>
    intro e D hD hC
    by_cases hmem : toolId d ∈ D
    · have h1 : (merge_duplicate_metadata e d).detected_by = some D := by
        simp [merge_duplicate_metadata, hD, hmem]
      have h2 : (merge_duplicate_metadata e d).confidence = some D.length := by
        simp [merge_duplicate_metadata, hD, hmem]
      obtain ⟨D', hd1, hd2, hsub, hds⟩ := ih _ _ h1 h2
      refine ⟨D', hd1, hd2, hsub, ?_⟩
      rintro d' hd'
      rcases List.mem_cons.mp hd' with rfl | hd'
      · exact hsub _ hmem
      · exact hds _ hd'
    · have h1 : (merge_duplicate_metadata e d).detected_by =
          some (D ++ [toolId d]) := by
        simp [merge_duplicate_metadata, hD, hmem]
      have h2 : (merge_duplicate_metadata e d).confidence =
          some (D ++ [toolId d]).length := by
        simp [merge_duplicate_metadata, hD, hmem]
      obtain ⟨D', hd1, hd2, hsub, hds⟩ := ih _ _ h1 h2
      refine ⟨D', hd1, hd2, fun s hs => hsub s (by simp [hs]), ?_⟩
      rintro d' hd'
      rcases List.mem_cons.mp hd' with rfl | hd'
      · exact hsub _ (by simp)
      · exact hds _ hd'

/-- Merging at least one duplicate into a raw canonical record populates
`detected_by` with the canonical identifier and every duplicate's
identifier, and sets `confidence` to the set's size. -/
theorem foldl_merge_detected (c : Finding) (hc : c.detected_by = none)
    (d : Finding) (ds : List Finding) :
    ∃ D : List String,
      ((d :: ds).foldl merge_duplicate_metadata c).detected_by = some D ∧
      ((d :: ds).foldl merge_duplicate_metadata c).confidence =
        some D.length ∧
      toolId c ∈ D ∧ ∀ d' ∈ d :: ds, toolId d' ∈ D := by
  by_cases hmem : toolId d ∈ [toolId c]
  · have heq : toolId d = toolId c := by simpa using hmem
    have h1 : (merge_duplicate_metadata c d).detected_by =
        some [toolId c] := by
      simp [merge_duplicate_metadata, hc, heq]
    have h2 : (merge_duplicate_metadata c d).confidence =
        some ([toolId c] : List String).length := by
      simp [merge_duplicate_metadata, hc, heq]
    obtain ⟨D', hd1, hd2, hsub, hds⟩ := foldl_merge_detected_some ds _ _ h1 h2
    refine ⟨D', hd1, hd2, hsub _ (by simp), ?_⟩
    rintro d' hd'
    rcases List.mem_cons.mp hd' with rfl | hd'
    · simp only [List.mem_singleton] at hmem
      exact hmem ▸ hsub _ (by simp)
    · exact hds _ hd'
  · have hne : ¬toolId d = toolId c := by simpa using hmem
    have h1 : (merge_duplicate_metadata c d).detected_by =
        some [toolId c, toolId d] := by
      simp [merge_duplicate_metadata, hc, hne]
    have h2 : (merge_duplicate_metadata c d).confidence =
        some ([toolId c, toolId d] : List String).length := by
      simp [merge_duplicate_metadata, hc, hne]
    obtain ⟨D', hd1, hd2, hsub, hds⟩ := foldl_merge_detected_some ds _ _ h1 h2
    refine ⟨D', hd1, hd2, hsub _ (by simp), ?_⟩
    rintro d' hd'
    rcases List.mem_cons.mp hd' with rfl | hd'
    · exact hsub _ (by simp)
    · exact hds _ hd'

/-- Two distinct positions satisfying a predicate force a count of at
least two. -/
theorem two_le_countP (p : Finding → Bool) (xs : List Finding) :
    ∀ (i j : Nat) (hij : i < j) (hj : j < xs.length),
      p (xs.get ⟨i, lt_trans hij hj⟩) = true → p (xs.get ⟨j, hj⟩) = true →
      2 ≤ xs.countP p := by
  induction xs with
  | nil =>
    intro i j hij hj
    simp at hj
  | cons x t ih =>
    intro i j hij hj hpi hpj
    cases j with
    | zero => omega
    | succ j' =>
      have hj' : j' < t.length := by simpa using hj
      cases i with
      | zero =>
        have hx : p x = true := hpi
        have ht : p (t.get ⟨j', hj'⟩) = true := hpj
        have h1 : 0 < t.countP p :=
          List.countP_pos.mpr ⟨_, t.get_mem _ _, ht⟩
        simp only [List.countP_cons, hx, if_pos]
        omega
      | succ i' =>
        have h2 := ih i' j' (by omega) hj' hpi hpj
        rw [List.countP_cons]
        by_cases hpx : p x = true
        · rw [if_pos hpx]; omega
        · rw [if_neg hpx]; omega

/-- Every record surviving deduplication shares its type, risk score and
message with some input record (the canonical first occurrence of its
fingerprint group). -/
theorem dedup_mem_core (xs : List Finding) (y : Finding)
    (hy : y ∈ deduplicate_issues xs) :
    ∃ c ∈ xs, y.type = c.type ∧ y.risk_score = c.risk_score ∧
      y.message = c.message := by
  have hT := deduplicate_issues_filter xs (create_fingerprint y)
  have hymem : y ∈ (deduplicate_issues xs).filter
      fun z => create_fingerprint z = create_fingerprint y :=
    List.mem_filter.mpr ⟨hy, by simp⟩
  rw [hT] at hymem
  cases hflt : xs.filter
      fun z => create_fingerprint z = create_fingerprint y with
  | nil =>
    rw [hflt] at hymem
    simp [collapseGroup] at hymem
  | cons c ds =>
    rw [hflt] at hymem
    simp only [collapseGroup, List.mem_singleton] at hymem
    subst hymem
    have hc : c ∈ xs.filter
        fun z => create_fingerprint z = create_fingerprint
          (ds.foldl merge_duplicate_metadata c) := by
      rw [hflt]
      exact List.mem_cons_self c ds
    obtain ⟨hcx, _⟩ := List.mem_filter.mp hc
    obtain ⟨_, _, hmsg, hty, _, hrs⟩ := foldl_merge_core ds c
    exact ⟨c, hcx, hty, hrs, hmsg⟩

/-- Stability of the insertion step: inserting with the non-strict
descending comparison never moves an element past another with the same
key, so the sublist at any fixed key is `x` prepended. -/
theorem orderedInsert_filter_key (x : Finding) (l : List Finding) (q : ℚ) :
    (List.orderedInsert (fun a b => getRS b ≤ getRS a) x l).filter
        (fun z => getRS z = q) =
      ((x :: l).filter fun z => getRS z = q) := by
  induction l with
  | nil => rfl
  | cons y ys ih =>
    by_cases hr : getRS y ≤ getRS x
    · simp [List.orderedInsert, hr]
    · have hlt : getRS x < getRS y := lt_of_not_le hr
      by_cases hy : getRS y = q
      · have hx : getRS x ≠ q := hy ▸ ne_of_lt hlt
        simp only [List.orderedInsert, if_neg hr, List.filter_cons]
        simp [hy, hx, ih, List.filter_cons]
      · simp only [List.orderedInsert, if_neg hr, List.filter_cons]
        simp [hy, ih, List.filter_cons]

/-- Stability of the full sort: the sublist of any fixed key is unchanged. -/
theorem insertionSort_filter_key (l : List Finding) (q : ℚ) :
    ((l.insertionSort fun a b => getRS b ≤ getRS a).filter
        fun z => getRS z = q) =
      (l.filter fun z => getRS z = q) := by
  induction l with
  | nil => rfl
  | cons x xs ih =>
    rw [List.insertionSort, orderedInsert_filter_key, List.filter_cons,
      List.filter_cons, ih]

/-! ## Claims -/

/-- The concrete finding of the spec's scoring scenario. -/
def eval_usage_finding : Finding :=
  { type := some "security"
    message := some "eval() usage - arbitrary code execution" }

/-- C1: for every Context, scoring a security finding with message
"eval() usage - arbitrary code execution" yields impact 10, likelihood 9,
scope 9, fix cost 4, risk score exactly 9.1, and level CRITICAL. -/
theorem C1_eval_scenario (ctx : Context) :
    (score_issue ctx eval_usage_finding).risk_impact = some 10 ∧
    (score_issue ctx eval_usage_finding).risk_likelihood = some 9 ∧
    (score_issue ctx eval_usage_finding).risk_scope = some 9 ∧
    (score_issue ctx eval_usage_finding).risk_fix_cost = some 4 ∧
    (score_issue ctx eval_usage_finding).risk_score = some (9.1 : ℚ) ∧
    (score_issue ctx eval_usage_finding).risk_level = some "CRITICAL" := by
  have hi : calculate_impact ctx eval_usage_finding = 10 := rfl
  have hl : calculate_likelihood eval_usage_finding = 9 := rfl
  have hf : calculate_fix_cost eval_usage_finding = 4 := rfl
  have hs : calculate_scope eval_usage_finding = 9 := rfl
  refine ⟨rfl, rfl, rfl, rfl, ?_, ?_⟩
  · simp only [score_issue, hi, hl, hf, hs, round2]
    norm_num
  · simp only [score_issue, hi, hl, hf, hs, get_risk_level]
    norm_num

/-- C3: the scored list is non-increasing in risk score, is a permutation of
the scored input, and findings with equal risk score keep their input
relative order. -/
theorem C3_scored_output_sorted_stable (issues : List Finding) (ctx : Context) :
    (score_all_issues issues ctx).Pairwise (fun a b => getRS b ≤ getRS a) ∧
    (score_all_issues issues ctx).Perm (issues.map fun i => score_issue ctx i) ∧
    ∀ q : ℚ, ((score_all_issues issues ctx).filter fun z => getRS z = q) =
      ((issues.map fun i => score_issue ctx i).filter fun z => getRS z = q) :=
  ⟨List.sorted_insertionSort _ _, List.perm_insertionSort _ _,
    fun q => insertionSort_filter_key _ q⟩

/-- C4: the composite risk score is the weighted sum
impact*0.4 + likelihood*0.3 + scope*0.2 + (10 - fix_cost)*0.1 rounded to two
decimals; each sub-score lies in [0,10] and so does the resulting score. -/
theorem C4_risk_score_formula_and_bounds (ctx : Context) (issue : Finding) :
    (score_issue ctx issue).risk_score =
      some (round2 ((calculate_impact ctx issue : ℚ) * 0.4 +
        (calculate_likelihood issue : ℚ) * 0.3 +
        (calculate_scope issue : ℚ) * 0.2 +
        ((10 - calculate_fix_cost issue : ℤ) : ℚ) * 0.1)) ∧
    (0 ≤ calculate_impact ctx issue ∧ calculate_impact ctx issue ≤ 10) ∧
    (0 ≤ calculate_likelihood issue ∧ calculate_likelihood issue ≤ 10) ∧
    (0 ≤ calculate_scope issue ∧ calculate_scope issue ≤ 10) ∧
    (0 ≤ calculate_fix_cost issue ∧ calculate_fix_cost issue ≤ 10) ∧
    0 ≤ ((score_issue ctx issue).risk_score).getD 0 ∧
    ((score_issue ctx issue).risk_score).getD 0 ≤ 10 := by
  obtain ⟨hi0, hi1⟩ := calculate_impact_bounds ctx issue
  obtain ⟨hl0, hl1⟩ := calculate_likelihood_bounds issue
  obtain ⟨hs0, hs1⟩ := calculate_scope_bounds issue
  obtain ⟨hf0, hf1⟩ := calculate_fix_cost_bounds issue
  have hq : (calculate_impact ctx issue : ℚ) * 0.4 +
      (calculate_likelihood issue : ℚ) * 0.3 +
      (calculate_scope issue : ℚ) * 0.2 +
      ((10 - calculate_fix_cost issue : ℤ) : ℚ) * 0.1 =
      ((4 * calculate_impact ctx issue + 3 * calculate_likelihood issue +
        2 * calculate_scope issue + (10 - calculate_fix_cost issue) : ℤ) : ℚ) / 10 := by
    push_cast; ring
  have hrs : (score_issue ctx issue).risk_score =
      some (((4 * calculate_impact ctx issue + 3 * calculate_likelihood issue +
        2 * calculate_scope issue + (10 - calculate_fix_cost issue) : ℤ) : ℚ) / 10) := by
    show some (round2 _) = _
    rw [hq, round2_int_div_ten]
  have hk0 : (0 : ℤ) ≤ 4 * calculate_impact ctx issue +
      3 * calculate_likelihood issue + 2 * calculate_scope issue +
      (10 - calculate_fix_cost issue) := by linarith
  have hk1 : 4 * calculate_impact ctx issue + 3 * calculate_likelihood issue +
      2 * calculate_scope issue + (10 - calculate_fix_cost issue) ≤ 100 := by
    linarith
  refine ⟨rfl, ⟨hi0, hi1⟩, ⟨hl0, hl1⟩, ⟨hs0, hs1⟩, ⟨hf0, hf1⟩, ?_, ?_⟩ <;>
    rw [hrs] <;> simp only [Option.getD_some]
  · apply div_nonneg _ (by norm_num)
    exact_mod_cast hk0
  · rw [div_le_iff₀ (by norm_num)]
    have h100 : ((4 * calculate_impact ctx issue + 3 * calculate_likelihood issue +
        2 * calculate_scope issue + (10 - calculate_fix_cost issue) : ℤ) : ℚ) ≤ 100 := by
      exact_mod_cast hk1
    linarith

/-- C9: with no API credential, and likewise when the enrichment call
raises, the context analyzer returns the documented default Context
(stage Development, both flags false, medium risk tolerance) instead of
failing. -/
theorem C9_default_context (code_files : List (String × String))
    (response : Except Unit String) (key : String) (e : Unit) :
    analyze_context code_files none response = get_default_context ∧
    analyze_context code_files (some key) (.error e) = get_default_context ∧
    get_default_context.stage = "Development" ∧
    get_default_context.is_performance_critical = false ∧
    get_default_context.has_domain_complexity = false ∧
    get_default_context.risk_tolerance = "medium" :=
  ⟨rfl, rfl, rfl, rfl, rfl, rfl⟩

/-- C5: the suppression engine tries its five rules in the fixed order,
the first match decides and supplies the attached reason, unmatched findings
are kept unchanged, and the engine returns exactly the unsuppressed findings
in input order while the suppressed ones are only counted. -/
theorem C5_suppression_contract (ctx : Context) (issue : Finding)
    (issues : List Finding) :
    should_suppress ctx issue =
      (if (suppress_performance_complexity ctx issue).1 then
        suppress_performance_complexity ctx issue
      else if (suppress_domain_complexity ctx issue).1 then
        suppress_domain_complexity ctx issue
      else if (suppress_generated_code issue).1 then
        suppress_generated_code issue
      else if (suppress_prototype_style ctx issue).1 then
        suppress_prototype_style ctx issue
      else if (suppress_test_code_issues issue).1 then
        suppress_test_code_issues issue
      else (false, "")) ∧
    apply_suppressions issues ctx =
      issues.filter (fun i => !(should_suppress ctx i).1) ∧
    suppressed_count issues ctx =
      issues.length - (apply_suppressions issues ctx).length := by
  refine ⟨?_, apply_suppressions_eq_filter issues ctx, ?_⟩
  · simp only [should_suppress, suppression_rules, run_rules_cons, run_rules]
    repeat' split <;> simp_all [Prod.ext_iff]
  · rw [apply_suppressions_eq_filter]
    unfold suppressed_count
    induction issues with
    | nil => rfl
    | cons x xs ih =>
      by_cases h : (should_suppress ctx x).1 <;>
        simp [List.countP_cons, List.filter_cons, h, ih] <;>
        have := List.length_filter_le (fun i => !(should_suppress ctx i).1) xs <;>
        omega

/-- C6: applying suppression to its own output is a no-op. -/
theorem C6_suppression_idempotent (issues : List Finding) (ctx : Context) :
    apply_suppressions (apply_suppressions issues ctx) ctx =
      apply_suppressions issues ctx := by
  rw [apply_suppressions_eq_filter, apply_suppressions_eq_filter]
  induction issues with
  | nil => rfl
  | cons x xs ih =>
    by_cases h : (should_suppress ctx x).1 <;> simp [List.filter_cons, h, ih]

/-- A security finding whose message mentions "injection" but not
"sql injection" (and not "eval"). -/
def cmd_injection_finding : Finding :=
  { type := some "security", message := some "command injection vulnerability" }

/-- C7 counterexample: a security finding mentioning "injection" (namely
"command injection vulnerability") gets impact 7, not the 10 the claim
assigns to every security finding mentioning injection; the code keys on the
exact phrase "sql injection". -/
theorem C7_counterexample :
    cmd_injection_finding.type = some "security" ∧
    strContains (lowerMsg cmd_injection_finding) "injection" = true ∧
    strContains (lowerMsg cmd_injection_finding) "sql injection" = false ∧
    strContains (lowerMsg cmd_injection_finding) "eval" = false ∧
    calculate_impact get_default_context cmd_injection_finding = 7 ∧
    (7 : ℤ) ≠ 10 := by
  refine ⟨rfl, by decide, by decide, by decide, rfl, by decide⟩

/-- C7 (amended): the impact table keyed on type and message keywords —
security with "sql injection" or "eval" → 10; security with "xss" or
"hardcoded" → 8; other security → 7; semantic with "crash" or "error" → 7;
other semantic → 5; complexity → 6 when the context stage is Production and
3 otherwise; everything else → 4. -/
theorem C7_impact_table (ctx : Context) (issue : Finding) :
    (issue.type = some "security" →
      ((strContains (lowerMsg issue) "sql injection" = true ∨
        strContains (lowerMsg issue) "eval" = true) →
        calculate_impact ctx issue = 10) ∧
      (strContains (lowerMsg issue) "sql injection" = false →
        strContains (lowerMsg issue) "eval" = false →
        (strContains (lowerMsg issue) "xss" = true ∨
         strContains (lowerMsg issue) "hardcoded" = true) →
        calculate_impact ctx issue = 8) ∧
      (strContains (lowerMsg issue) "sql injection" = false →
        strContains (lowerMsg issue) "eval" = false →
        strContains (lowerMsg issue) "xss" = false →
        strContains (lowerMsg issue) "hardcoded" = false →
        calculate_impact ctx issue = 7)) ∧
    (issue.type = some "semantic" →
      ((strContains (lowerMsg issue) "crash" = true ∨
        strContains (lowerMsg issue) "error" = true) →
        calculate_impact ctx issue = 7) ∧
      (strContains (lowerMsg issue) "crash" = false →
        strContains (lowerMsg issue) "error" = false →
        calculate_impact ctx issue = 5)) ∧
    (issue.type = some "complexity" →
      (ctx.stage = "Production" → calculate_impact ctx issue = 6) ∧
      (ctx.stage ≠ "Production" → calculate_impact ctx issue = 3)) ∧
    (issue.type ≠ some "security" → issue.type ≠ some "semantic" →
      issue.type ≠ some "complexity" → calculate_impact ctx issue = 4) := by
  unfold calculate_impact lowerMsg
  rcases issue with ⟨file, line, ty, sev, msg, tool, db, cf, rs, ri, rl, rf, rsc, rlv⟩
  refine ⟨?_, ?_, ?_, ?_⟩
  · rintro rfl
    refine ⟨?_, ?_, ?_⟩
    · rintro (h | h) <;> simp [h]
    · intro h1 h2 h3
      rcases h3 with h3 | h3 <;> simp [h1, h2, h3]
    · intro h1 h2 h3 h4
      simp [h1, h2, h3, h4]
  · rintro rfl
    refine ⟨?_, ?_⟩
    · rintro (h | h) <;> simp [h]
    · intro h1 h2
      simp [h1, h2]
  · rintro rfl
    refine ⟨?_, ?_⟩ <;> intro h <;> simp [h]
  · intro h1 h2 h3
    cases ty with
    | none => simp
    | some t =>
      have t1 : t ≠ "security" := fun h => h1 (by rw [h])
      have t2 : t ≠ "semantic" := fun h => h2 (by rw [h])
      have t3 : t ≠ "complexity" := fun h => h3 (by rw [h])
      simp [t1, t2, t3]

/-- Witness for C7's amended table at a concrete security finding mentioning
"sql injection". -/
theorem C7_witness :
    eval_usage_finding.type = some "security" ∧
    strContains (lowerMsg eval_usage_finding) "eval" = true ∧
    calculate_impact get_default_context eval_usage_finding = 10 :=
  ⟨rfl, by decide,
    ((C7_impact_table get_default_context eval_usage_finding).1 rfl).1
      (Or.inr (by decide))⟩

/-- C8 counterexample: a message mentioning "injection" (namely
"command injection vulnerability"), with no hardcoded/secret keyword, gets
likelihood 5, not the 9 the claim's keyword table assigns to injection; the
code keys on the exact phrase "sql injection". -/
theorem C8_counterexample :
    strContains (lowerMsg cmd_injection_finding) "injection" = true ∧
    strContains (lowerMsg cmd_injection_finding) "hardcoded" = false ∧
    strContains (lowerMsg cmd_injection_finding) "secret" = false ∧
    calculate_likelihood cmd_injection_finding = 5 ∧
    (5 : ℤ) ≠ 9 := by
  refine ⟨by decide, by decide, by decide, rfl, by decide⟩

/-- C8 (amended): the likelihood keyword table on the lower-cased message —
"hardcoded"/"secret" → 10; else "eval"/"sql injection" → 9; else
"division by zero" → 7; else "xss" → 6; else "docstring" → 1; else 5. -/
theorem C8_likelihood_table (issue : Finding) :
    ((strContains (lowerMsg issue) "hardcoded" = true ∨
      strContains (lowerMsg issue) "secret" = true) →
      calculate_likelihood issue = 10) ∧
    (strContains (lowerMsg issue) "hardcoded" = false →
      strContains (lowerMsg issue) "secret" = false →
      (strContains (lowerMsg issue) "eval" = true ∨
       strContains (lowerMsg issue) "sql injection" = true) →
      calculate_likelihood issue = 9) ∧
    (strContains (lowerMsg issue) "hardcoded" = false →
      strContains (lowerMsg issue) "secret" = false →
      strContains (lowerMsg issue) "eval" = false →
      strContains (lowerMsg issue) "sql injection" = false →
      strContains (lowerMsg issue) "division by zero" = true →
      calculate_likelihood issue = 7) ∧
    (strContains (lowerMsg issue) "hardcoded" = false →
      strContains (lowerMsg issue) "secret" = false →
      strContains (lowerMsg issue) "eval" = false →
      strContains (lowerMsg issue) "sql injection" = false →
      strContains (lowerMsg issue) "division by zero" = false →
      strContains (lowerMsg issue) "xss" = true →
      calculate_likelihood issue = 6) ∧
    (strContains (lowerMsg issue) "hardcoded" = false →
      strContains (lowerMsg issue) "secret" = false →
      strContains (lowerMsg issue) "eval" = false →
      strContains (lowerMsg issue) "sql injection" = false →
      strContains (lowerMsg issue) "division by zero" = false →
      strContains (lowerMsg issue) "xss" = false →
      strContains (lowerMsg issue) "docstring" = true →
      calculate_likelihood issue = 1) ∧
    (strContains (lowerMsg issue) "hardcoded" = false →
      strContains (lowerMsg issue) "secret" = false →
      strContains (lowerMsg issue) "eval" = false →
      strContains (lowerMsg issue) "sql injection" = false →
      strContains (lowerMsg issue) "division by zero" = false →
      strContains (lowerMsg issue) "xss" = false →
      strContains (lowerMsg issue) "docstring" = false →
      calculate_likelihood issue = 5) := by
  unfold calculate_likelihood lowerMsg
  refine ⟨?_, ?_, ?_, ?_, ?_, ?_⟩
  · rintro (h | h) <;> simp [h]
  · rintro h1 h2 (h | h) <;> simp [h1, h2, h]
  · intro h1 h2 h3 h4 h5
    simp [h1, h2, h3, h4, h5]
  · intro h1 h2 h3 h4 h5 h6
    simp [h1, h2, h3, h4, h5, h6]
  · intro h1 h2 h3 h4 h5 h6 h7
    simp [h1, h2, h3, h4, h5, h6, h7]
  · intro h1 h2 h3 h4 h5 h6 h7
    simp [h1, h2, h3, h4, h5, h6, h7]

/-- Witness for C8's amended table at a concrete hardcoded-secret message. -/
theorem C8_witness :
    strContains (lowerMsg eval_usage_finding) "eval" = true ∧
    strContains (lowerMsg eval_usage_finding) "hardcoded" = false ∧
    strContains (lowerMsg eval_usage_finding) "secret" = false ∧
    calculate_likelihood eval_usage_finding = 9 :=
  ⟨by decide, by decide, by decide,
    (C8_likelihood_table eval_usage_finding).2.1 (by decide) (by decide)
      (Or.inl (by decide))⟩

/-- C2: when a list contains two findings with the same fingerprint,
deduplication returns exactly one record with that fingerprint; it carries
the identifying fields of the first-seen finding of the group, its
`detected_by` contains the originating detector identifiers of both
findings, and its `confidence` equals the size of `detected_by`.  As the
data model states, `detected_by` is absent before deduplication runs. -/
theorem C2_dedup_collapse (xs : List Finding) (i j : Nat) (hij : i < j)
    (hj : j < xs.length)
    (hfp : create_fingerprint (xs.get ⟨i, lt_trans hij hj⟩) =
      create_fingerprint (xs.get ⟨j, hj⟩))
    (hdb : ∀ x ∈ xs, x.detected_by = none) :
    ((deduplicate_issues xs).filter fun y =>
      create_fingerprint y = create_fingerprint (xs.get ⟨j, hj⟩)).length = 1 ∧
    ∀ y ∈ deduplicate_issues xs,
      create_fingerprint y = create_fingerprint (xs.get ⟨j, hj⟩) →
      ∃ c ds, (xs.filter fun x =>
          create_fingerprint x = create_fingerprint (xs.get ⟨j, hj⟩)) =
            c :: ds ∧
        y.file = c.file ∧ y.line = c.line ∧ y.message = c.message ∧
        y.type = c.type ∧ y.tool = c.tool ∧
        toolId (xs.get ⟨i, lt_trans hij hj⟩) ∈ y.detected_by.getD [] ∧
        toolId (xs.get ⟨j, hj⟩) ∈ y.detected_by.getD [] ∧
        y.confidence = some (y.detected_by.getD []).length := by
  have hT := deduplicate_issues_filter xs
    (create_fingerprint (xs.get ⟨j, hj⟩))
  have hpi : (fun x => decide (create_fingerprint x =
      create_fingerprint (xs.get ⟨j, hj⟩)))
      (xs.get ⟨i, lt_trans hij hj⟩) = true := by
    simp only [decide_eq_true_eq]
    exact hfp
  have hpj : (fun x => decide (create_fingerprint x =
      create_fingerprint (xs.get ⟨j, hj⟩))) (xs.get ⟨j, hj⟩) = true := by
    simp only [decide_eq_true_eq]
  have hcnt := two_le_countP (fun x => decide (create_fingerprint x =
    create_fingerprint (xs.get ⟨j, hj⟩))) xs i j hij hj hpi hpj
  have hflen : 2 ≤ (xs.filter fun x => create_fingerprint x =
      create_fingerprint (xs.get ⟨j, hj⟩)).length := by
    rw [← List.countP_eq_length_filter]
    exact hcnt
  cases hflt : xs.filter (fun x => create_fingerprint x =
      create_fingerprint (xs.get ⟨j, hj⟩)) with
  | nil =>
    rw [hflt] at hflen
    simp at hflen
  | cons c ds =>
    rw [hflt] at hT hflen
    cases ds with
    | nil => simp at hflen
    | cons d ds' =>
      have hcmem : c ∈ xs ∧ _ := List.mem_filter.mp (hflt ▸
        List.mem_cons_self c (d :: ds'))
      have hcdb : c.detected_by = none := hdb c hcmem.1
      obtain ⟨D, hD, hconf, hcD, hallD⟩ := foldl_merge_detected c hcdb d ds'
      constructor
      · rw [hT]
        simp [collapseGroup]
      · intro y hy hyf
        have hymem : y ∈ (deduplicate_issues xs).filter
            fun z => create_fingerprint z =
              create_fingerprint (xs.get ⟨j, hj⟩) :=
          List.mem_filter.mpr ⟨hy, by simp [hyf]⟩
        rw [hT] at hymem
        simp only [collapseGroup, List.mem_singleton] at hymem
        subst hymem
        obtain ⟨hfile, hline, hmsg, hty, htool, _⟩ :=
          foldl_merge_core (d :: ds') c
        have hgetD : ((d :: ds').foldl merge_duplicate_metadata
            c).detected_by.getD [] = D := by rw [hD]; rfl
        refine ⟨c, d :: ds', rfl, hfile, hline, hmsg, hty, htool, ?_, ?_, ?_⟩
        · rw [hgetD]
          have hmemf : xs.get ⟨i, lt_trans hij hj⟩ ∈
              xs.filter (fun x => create_fingerprint x =
                create_fingerprint (xs.get ⟨j, hj⟩)) :=
            List.mem_filter.mpr ⟨List.get_mem xs i _, hpi⟩
          rw [hflt] at hmemf
          rcases List.mem_cons.mp hmemf with heq | hmem'
          · rw [heq]; exact hcD
          · exact hallD _ hmem'
        · rw [hgetD]
          have hmemf : xs.get ⟨j, hj⟩ ∈
              xs.filter (fun x => create_fingerprint x =
                create_fingerprint (xs.get ⟨j, hj⟩)) :=
            List.mem_filter.mpr ⟨List.get_mem xs j _, hpj⟩
          rw [hflt] at hmemf
          rcases List.mem_cons.mp hmemf with heq | hmem'
          · rw [heq]; exact hcD
          · exact hallD _ hmem'
        · rw [hgetD, hconf]

/-- A Bandit-style detection and an external-tool detection of the same
issue on the same file and line, differing only in stripped tool and number
tokens: both normalize to the message "eval used". -/
def bandit_eval_finding : Finding :=
  { file := some "app.py", line := some 3, type := some "security",
    tool := some "bandit", message := some "[b101: warn] line 3: eval used" }

def semgrep_eval_finding : Finding :=
  { file := some "app.py", line := some 3, type := some "security",
    tool := some "semgrep", message := some "line 12: eval used" }

def pair_input : List Finding := [bandit_eval_finding, semgrep_eval_finding]

/-- Witness for C2 on two concrete findings whose messages differ only by
stripped tool codes and number tokens. -/
theorem C2_witness :
    (0 : Nat) < 1 ∧ 1 < pair_input.length ∧
    create_fingerprint (pair_input.get ⟨0, by decide⟩) =
      create_fingerprint (pair_input.get ⟨1, by decide⟩) ∧
    (∀ x ∈ pair_input, x.detected_by = none) ∧
    (((deduplicate_issues pair_input).filter fun y =>
      create_fingerprint y =
        create_fingerprint (pair_input.get ⟨1, by decide⟩)).length = 1 ∧
    ∀ y ∈ deduplicate_issues pair_input,
      create_fingerprint y =
        create_fingerprint (pair_input.get ⟨1, by decide⟩) →
      ∃ c ds, (pair_input.filter fun x =>
          create_fingerprint x =
            create_fingerprint (pair_input.get ⟨1, by decide⟩)) = c :: ds ∧
        y.file = c.file ∧ y.line = c.line ∧ y.message = c.message ∧
        y.type = c.type ∧ y.tool = c.tool ∧
        toolId (pair_input.get ⟨0, by decide⟩) ∈ y.detected_by.getD [] ∧
        toolId (pair_input.get ⟨1, by decide⟩) ∈ y.detected_by.getD [] ∧
        y.confidence = some (y.detected_by.getD []).length) :=
  ⟨by decide, by decide, by decide, by decide,
    C2_dedup_collapse pair_input 0 1 (by decide) (by decide) (by decide)
      (by decide)⟩

/-- C10: a complexity finding that carries no risk score field is rejected
by `should_keep_issue`, so the deduplication-and-noise-filtering pipeline
(run before risk scoring in the production graph) discards every complexity
finding. -/
theorem C10_complexity_discarded (xs : List Finding)
    (h : ∀ x ∈ xs, x.type = some "complexity" → x.risk_score = none) :
    (∀ x : Finding, x.type = some "complexity" → x.risk_score = none →
      should_keep_issue x = false) ∧
    ∀ y ∈ process_issues_pipeline xs, y.type ≠ some "complexity" := by
  have hkeep : ∀ x : Finding, x.type = some "complexity" →
      x.risk_score = none → should_keep_issue x = false := by
    intro x hty hrs
    unfold should_keep_issue
    rw [hrs, hty]
    simp only [Option.getD_none]
    split
    · rfl
    · rw [if_neg (by norm_num)]
      rw [if_neg (by simp)]
      rw [if_neg (by simp)]
      rw [if_pos ⟨trivial, by norm_num⟩]
  refine ⟨hkeep, ?_⟩
  intro y hy hty
  unfold process_issues_pipeline smart_filter_noise at hy
  obtain ⟨hydedup, hykeep⟩ := List.mem_filter.mp hy
  obtain ⟨c, hcx, hcty, hcrs, _⟩ := dedup_mem_core xs y hydedup
  have hynone : y.risk_score = none := by
    rw [hcrs]
    exact h c hcx (hcty ▸ hty)
  rw [hkeep y hty hynone] at hykeep
  exact Bool.false_ne_true hykeep

/-- A raw complexity detection with no risk score field. -/
def bare_complexity_finding : Finding :=
  { file := some "core.py", type := some "complexity",
    message := some "high cyclomatic complexity" }

/-- Witness for C10 on a concrete raw complexity finding. -/
theorem C10_witness :
    (∀ x ∈ [bare_complexity_finding],
      x.type = some "complexity" → x.risk_score = none) ∧
    ((∀ x : Finding, x.type = some "complexity" → x.risk_score = none →
      should_keep_issue x = false) ∧
    ∀ y ∈ process_issues_pipeline [bare_complexity_finding],
      y.type ≠ some "complexity") :=
  ⟨by decide, C10_complexity_discarded [bare_complexity_finding] (by decide)⟩

end CodeGuardian
